import Mathlib

/-!
# Verification of the cc-scaffold merge / recommendation / scan subsystem

Shallow embedding of the configuration-merge module, the recommendation
engine, the diff reporter, the backup pruner and the project scanner of the
cc-scaffold CLI, together with proofs of the specified properties.

Strings that only flow through the algorithms are modelled with `String`;
the custom-section extractor, which is analysed structurally, works on
`List Char` (the character list of the file content).
-/

/-! ## Basic string/list utilities shared by the embedded functions -/

/-- First index at which `pat` occurs as a contiguous sublist of `s`
(JavaScript `String.prototype.indexOf`); `none` when absent. -/
def listIndexOf : List Char → List Char → Option Nat
  | [], pat => if pat.isEmpty then some 0 else none
  | c :: rest, pat =>
    if pat.isPrefixOf (c :: rest) then some 0
    else (listIndexOf rest pat).map (· + 1)

/-- JavaScript substring test `s.includes(sub)`. -/
def strIncludes (s sub : String) : Bool :=
  (listIndexOf s.toList sub.toList).isSome

/-- JavaScript `s.replace(pat, "")` for a plain (non-regex) pattern:
removes the first occurrence only. -/
def jsReplaceOnce (s pat : String) : String :=
  match listIndexOf s.toList pat.toList with
  | none => s
  | some i => ⟨s.toList.take i ++ s.toList.drop (i + pat.length)⟩

/-- Append an element to the end of the list unless it is already present
(JavaScript `Set.prototype.add`; a `Set` iterates in insertion order). -/
def addUnique (l : List String) (x : String) : List String :=
  if l.contains x then l else l ++ [x]

/-- Add every element of `xs` to `l` in order, skipping duplicates. -/
def addAll (l : List String) (xs : List String) : List String :=
  xs.foldl addUnique l

/-- Deduplicate a list keeping the first occurrence of each element
(JavaScript `[...new Set(l)]`). -/
def dedupFirst (l : List String) : List String :=
  l.foldl addUnique []

theorem mem_addUnique {l : List String} {x y : String} :
    y ∈ addUnique l x ↔ y ∈ l ∨ y = x := by
  unfold addUnique
  by_cases h : l.contains x
  · have hx : x ∈ l := by simpa using h
    rw [if_pos h]
    exact ⟨Or.inl, fun hy => hy.elim id (fun he => he ▸ hx)⟩
  · rw [if_neg h]
    simp

theorem mem_addAll {l xs : List String} {y : String} :
    y ∈ addAll l xs ↔ y ∈ l ∨ y ∈ xs := by
  induction xs generalizing l with
  | nil => simp [addAll]
  | cons x xs ih =>
    have hstep : addAll l (x :: xs) = addAll (addUnique l x) xs := rfl
    rw [hstep, ih, mem_addUnique]
    simp only [List.mem_cons]
    tauto

theorem mem_dedupFirst {l : List String} {y : String} :
    y ∈ dedupFirst l ↔ y ∈ l := by
  have h : y ∈ addAll [] l ↔ y ∈ ([] : List String) ∨ y ∈ l := mem_addAll
  simpa [dedupFirst, addAll] using h

/-! ## Merge module (`mergeConfigurations`, `mergeComponents`)

Embedding of the configuration-merge module.  A stored component, as read
back from disk by the loader, has a name, an optional file content and the
always-present (possibly empty) extracted custom sections. -/

structure ExistingItem where
  name : String
  content : Option String
  customSections : String
deriving DecidableEq, Repr

/-- Aggregate of components loaded from an existing configuration
directory (the parts relevant to merging). -/
structure ExistingConfig where
  skills : List ExistingItem
  agents : List ExistingItem
  hooks : List ExistingItem
  custom : List String
deriving DecidableEq, Repr

/-- The newly requested configuration: plain component-name lists. -/
structure NewConfig where
  skills : List String
  agents : List String
  hooks : List String
  custom : List String
deriving DecidableEq, Repr

/-- One entry of a merged component list, mirroring the three object
shapes pushed by `mergeComponents`: `{name, preserveCustomSections,
isUpdate: true}`, `{name, isNew: true}` and
`{name, content, customSections, isExisting: true}`. -/
inductive MergedComponent where
  | updateItem (name : String) (preserveCustomSections : String)
  | newItem (name : String)
  | existingItem (name : String) (content : Option String) (customSections : String)
deriving DecidableEq, Repr

/-- Association list with JavaScript `Map` semantics: `set` keeps the
original position of an existing key, `delete` removes it, iteration is in
insertion order. -/
def mapSet (m : List (String × ExistingItem)) (k : String) (v : ExistingItem) :
    List (String × ExistingItem) :=
  if m.any (fun p => p.1 = k) then
    m.map (fun p => if p.1 = k then (k, v) else p)
  else m ++ [(k, v)]

def mapGet (m : List (String × ExistingItem)) (k : String) : Option ExistingItem :=
  (m.find? (fun p => p.1 = k)).map (·.2)

def mapDelete (m : List (String × ExistingItem)) (k : String) :
    List (String × ExistingItem) :=
  m.filter (fun p => p.1 ≠ k)

/-- The `existingByName` index built at the top of `mergeComponents`. -/
def buildByName (existing : List ExistingItem) : List (String × ExistingItem) :=
  existing.foldl (fun m item => mapSet m item.name item) []

/-- The two loops of `mergeComponents`: process the incoming names against
the index, then append the remaining (never-requested) existing
components.  `item.customSections || two-q-marks` is the identity on the
`String`-typed field, so the update entry carries `customSections`
itself. -/
def mergeGo (m : List (String × ExistingItem)) (incoming : List String) :
    List MergedComponent :=
  match incoming with
  | [] => m.map (fun p => .existingItem p.1 p.2.content p.2.customSections)
  | name :: rest =>
    match mapGet m name with
    | some it => .updateItem name it.customSections :: mergeGo (mapDelete m name) rest
    | none => .newItem name :: mergeGo m rest

/-- `mergeComponents(existing, incoming, type)` from the merge module. -/
def mergeComponents (existing : List ExistingItem) (incoming : List String) :
    List MergedComponent :=
  mergeGo (buildByName existing) incoming

/-- Result of `mergeConfigurations`: either the new configuration taken
verbatim (replace strategies) or the component-wise merge. -/
inductive MergeOutcome where
  | replaced (cfg : NewConfig)
  | merged (skills agents hooks : List MergedComponent) (custom : List String)
deriving DecidableEq, Repr

/-- `mergeConfigurations(existing, newConfig, strategy)`; the `cancel`
strategy returns `null`, modelled as `none`.  (The filesystem backup done
by `backup-replace` before returning is a side effect outside the returned
value.) -/
def mergeConfigurations (existing : ExistingConfig) (newConfig : NewConfig)
    (strategy : String) : Option MergeOutcome :=
  if strategy = "backup-replace" then some (.replaced newConfig)
  else if strategy = "replace" then some (.replaced newConfig)
  else if strategy = "cancel" then none
  else
    some (.merged
      (mergeComponents existing.skills newConfig.skills)
      (mergeComponents existing.agents newConfig.agents)
      (mergeComponents existing.hooks newConfig.hooks)
      (existing.custom ++ newConfig.custom))

/-! ### Merge lemmas -/

theorem find?_filter_of_imp {α : Type} (p q : α → Bool) (l : List α)
    (h : ∀ x, p x = true → q x = true) :
    List.find? p (l.filter q) = List.find? p l := by
  induction l with
  | nil => rfl
  | cons a l ih =>
    by_cases hq : q a
    · rw [List.filter_cons_of_pos hq]
      cases hp : p a
      · rw [List.find?_cons_of_neg _ (by simp [hp]), List.find?_cons_of_neg _ (by simp [hp]), ih]
      · rw [List.find?_cons_of_pos _ hp, List.find?_cons_of_pos _ hp]
    · have hp : p a = false := by
        cases hpa : p a
        · rfl
        · exact absurd (h a hpa) (by simpa using hq)
      rw [List.filter_cons_of_neg (by simpa using hq), ih,
        List.find?_cons_of_neg _ (by simp [hp])]

theorem mapGet_delete_ne {m : List (String × ExistingItem)} {k k' : String}
    (h : k ≠ k') : mapGet (mapDelete m k') k = mapGet m k := by
  unfold mapGet mapDelete
  rw [find?_filter_of_imp _ _ m ?_]
  intro x hx
  simp only [decide_eq_true_eq] at hx ⊢
  rw [hx]
  exact h

theorem updateItem_mem_mergeGo {m : List (String × ExistingItem)}
    {incoming : List String} {name : String} {it : ExistingItem}
    (hget : mapGet m name = some it) (hmem : name ∈ incoming) :
    MergedComponent.updateItem name it.customSections ∈ mergeGo m incoming := by
  induction incoming generalizing m with
  | nil => cases hmem
  | cons h rest ih =>
    by_cases he : h = name
    · subst he
      simp [mergeGo, hget]
    · rcases List.mem_cons.mp hmem with heq | hrest
      · exact absurd heq.symm he
      · cases hfind : mapGet m h with
        | none => simp only [mergeGo, hfind]; exact List.mem_cons_of_mem _ (ih hget hrest)
        | some it' =>
          simp only [mergeGo, hfind]
          refine List.mem_cons_of_mem _ (ih ?_ hrest)
          rw [mapGet_delete_ne (fun hh => he hh.symm)]
          exact hget

theorem existingItem_mem_mergeGo {m : List (String × ExistingItem)}
    {incoming : List String} {name : String} {it : ExistingItem}
    (hget : mapGet m name = some it) (hmem : name ∉ incoming) :
    MergedComponent.existingItem name it.content it.customSections ∈ mergeGo m incoming := by
  induction incoming generalizing m with
  | nil =>
    unfold mapGet at hget
    cases hf : List.find? (fun p => (p.1 = name : Bool)) m with
    | none => rw [hf] at hget; cases hget
    | some q =>
      rw [hf] at hget
      have hq2 : q.2 = it := by simpa using hget
      have hq1 : q.1 = name := by simpa using List.find?_some hf
      simp only [mergeGo]
      exact List.mem_map.mpr ⟨q, List.mem_of_find?_eq_some hf, by rw [hq1, hq2]⟩
  | cons h rest ih =>
    have hne : h ≠ name := fun he => hmem (he ▸ List.mem_cons_self h rest)
    have hrest : name ∉ rest := fun hr => hmem (List.mem_cons_of_mem _ hr)
    cases hfind : mapGet m h with
    | none => simp only [mergeGo, hfind]; exact List.mem_cons_of_mem _ (ih hget hrest)
    | some it' =>
      simp only [mergeGo, hfind]
      refine List.mem_cons_of_mem _ (ih ?_ hrest)
      rw [mapGet_delete_ne (fun hh => hne hh.symm)]
      exact hget

/-- C1: under the `merge` strategy, a requested name that also appears in
the existing configuration yields an `isUpdate`-marked entry carrying the
existing component's `customSections` forward. -/
theorem merge_preserves_custom_sections
    (existing : ExistingConfig) (cfg : NewConfig) (name : String)
    (item : ExistingItem)
    (hget : mapGet (buildByName existing.skills) name = some item)
    (hcs : item.customSections ≠ "")
    (hreq : name ∈ cfg.skills) :
    mergeConfigurations existing cfg "merge" =
      some (.merged
        (mergeComponents existing.skills cfg.skills)
        (mergeComponents existing.agents cfg.agents)
        (mergeComponents existing.hooks cfg.hooks)
        (existing.custom ++ cfg.custom)) ∧
    MergedComponent.updateItem name item.customSections ∈
      mergeComponents existing.skills cfg.skills := by
  exact ⟨rfl, updateItem_mem_mergeGo hget hreq⟩

/-- C3: under the `merge` strategy, an existing component whose name was
not requested again is retained, marked `isExisting`, with its original
content. -/
theorem merge_retains_unrequested
    (existing : ExistingConfig) (cfg : NewConfig) (name : String)
    (item : ExistingItem)
    (hget : mapGet (buildByName existing.skills) name = some item)
    (hnotreq : name ∉ cfg.skills) :
    mergeConfigurations existing cfg "merge" =
      some (.merged
        (mergeComponents existing.skills cfg.skills)
        (mergeComponents existing.agents cfg.agents)
        (mergeComponents existing.hooks cfg.hooks)
        (existing.custom ++ cfg.custom)) ∧
    MergedComponent.existingItem name item.content item.customSections ∈
      mergeComponents existing.skills cfg.skills := by
  exact ⟨rfl, existingItem_mem_mergeGo hget hnotreq⟩

/-! ## Custom-section extraction (`extractCustomSections`)

The extractor works on the character list of the file content.  JavaScript
`String.prototype.trim` removes leading/trailing whitespace; the inputs
handled here are ASCII, so the whitespace class is modelled by the ASCII
whitespace characters. -/

def jsWhitespaceChar (c : Char) : Bool :=
  c == ' ' || c == '\t' || c == '\n' || c == '\r' || c == '\x0b' || c == '\x0c'

def trimStart (l : List Char) : List Char := l.dropWhile jsWhitespaceChar

def trimEnd (l : List Char) : List Char :=
  (l.reverse.dropWhile jsWhitespaceChar).reverse

/-- JavaScript `s.trim()`. -/
def jsTrim (l : List Char) : List Char := trimStart (trimEnd l)

/-- The separator appended after every captured section. -/
def nl2 : List Char := ['\n', '\n']

/-- Does the list start with a match of the regex pattern
newline, hash, hash, space, non-hash (the next-heading search)? -/
def isHeadingAt : List Char → Bool
  | '\n' :: '#' :: '#' :: ' ' :: c :: _ => c != '#'
  | _ => false

/-- Index of the first match of the next-heading pattern (regex `.match`
returns the index of the earliest match). -/
def findHeadingIdx : List Char → Option Nat
  | [] => none
  | c :: rest =>
    if isHeadingAt (c :: rest) then some 0 else (findHeadingIdx rest).map (· + 1)

/-- The fixed `customMarkers` list, in source order. -/
def customMarkers : List (List Char) :=
  ["## Project-Specific".toList, "## Our Rules".toList, "## Custom Rules".toList,
   "## Project Rules".toList, "## Local Additions".toList, "## Team Conventions".toList,
   "## Company Standards".toList]

/-- `content.slice(markerIndex, endIndex)` where `endIndex` is the next
heading match after the marker or the end of the content. -/
def sliceSpan (content marker : List Char) (idx : Nat) : List Char :=
  let after := content.drop (idx + marker.length)
  let endIdx := match findHeadingIdx after with
    | some j => idx + marker.length + j
    | none => content.length
  (content.take endIdx).drop idx

/-- The accumulation loop of `extractCustomSections`: for each marker in
the fixed list order, append the captured span followed by a blank-line
separator. -/
def extractLoop (content : List Char) : List (List Char) → List Char
  | [] => []
  | marker :: ms =>
    (match listIndexOf content marker with
     | some idx => sliceSpan content marker idx ++ nl2
     | none => []) ++ extractLoop content ms

/-- `extractCustomSections(content)`; a null/empty (falsy) content yields
the empty string. -/
def extractCustomSections (content : List Char) : List Char :=
  if content.isEmpty then [] else jsTrim (extractLoop content customMarkers)

/-- The captured spans of the markers present in `content`, in the order
of the fixed marker list. -/
def spansOf (content : List Char) (markers : List (List Char)) : List (List Char) :=
  markers.filterMap (fun m => (listIndexOf content m).map (sliceSpan content m))

/-- Join a list of spans with a blank-line separator. -/
def joinSep : List (List Char) → List Char
  | [] => []
  | [s] => s
  | s :: s' :: ss => s ++ nl2 ++ joinSep (s' :: ss)

/-- The spec-worded extractor with the marker-list capture order: spans of
the markers present, joined by a blank line, trimmed; empty when no marker
is present. -/
def extractSpecMarkerOrder (content : List Char) : List Char :=
  if content.isEmpty then [] else jsTrim (joinSep (spansOf content customMarkers))

/-- Modelled from the spec sentence under test: each present marker paired
with its position in the document. -/
def markerHits (content : List Char) (markers : List (List Char)) :
    List (Nat × List Char) :=
  markers.filterMap
    (fun m => (listIndexOf content m).map (fun idx => (idx, sliceSpan content m idx)))

def insertByIdx (x : Nat × List Char) : List (Nat × List Char) → List (Nat × List Char)
  | [] => [x]
  | y :: ys => if x.1 ≤ y.1 then x :: y :: ys else y :: insertByIdx x ys

def sortByIdx (l : List (Nat × List Char)) : List (Nat × List Char) :=
  l.foldr insertByIdx []

/-- The extractor exactly as the claim words it: captured spans
concatenated in document order (sorted by position of the marker in the
content), separated by a blank line. -/
def extractSpecDocOrder (content : List Char) : List Char :=
  if content.isEmpty then []
  else jsTrim (joinSep ((sortByIdx (markerHits content customMarkers)).map (·.2)))

/-! ### Equivalence of the loop with the joined-spans form -/

def appendSpans : List (List Char) → List Char
  | [] => []
  | s :: ss => s ++ nl2 ++ appendSpans ss

theorem extractLoop_eq_appendSpans (content : List Char) (markers : List (List Char)) :
    extractLoop content markers = appendSpans (spansOf content markers) := by
  induction markers with
  | nil => rfl
  | cons m ms ih =>
    cases h : listIndexOf content m with
    | none => simp [extractLoop, spansOf, h, ih, appendSpans]
    | some idx => simp [extractLoop, spansOf, h, ih, appendSpans, List.append_assoc]

theorem appendSpans_eq_joinSep_append {ss : List (List Char)} (h : ss ≠ []) :
    appendSpans ss = joinSep ss ++ nl2 := by
  induction ss with
  | nil => exact absurd rfl h
  | cons s ss ih =>
    cases ss with
    | nil => simp [appendSpans, joinSep]
    | cons s' ss' =>
      have ihh := ih (by simp)
      simp only [appendSpans, List.append_assoc] at ihh
      simp only [appendSpans, joinSep, List.append_assoc]
      rw [ihh]

theorem dropWhile_append_of_all {p : Char → Bool} {a b : List Char}
    (h : a.all p = true) : (a ++ b).dropWhile p = b.dropWhile p := by
  induction a with
  | nil => rfl
  | cons c a ih =>
    simp only [List.all_cons, Bool.and_eq_true] at h
    simp [List.dropWhile, h.1, ih h.2]

theorem trimEnd_append_ws {l w : List Char} (hw : w.reverse.all jsWhitespaceChar = true) :
    trimEnd (l ++ w) = trimEnd l := by
  unfold trimEnd
  rw [List.reverse_append, dropWhile_append_of_all hw]

theorem jsTrim_append_nl2 (l : List Char) : jsTrim (l ++ nl2) = jsTrim l := by
  unfold jsTrim
  rw [trimEnd_append_ws (by decide)]

theorem jsTrim_appendSpans (ss : List (List Char)) :
    jsTrim (appendSpans ss) = jsTrim (joinSep ss) := by
  cases ss with
  | nil => rfl
  | cons s ss => rw [appendSpans_eq_joinSep_append (by simp), jsTrim_append_nl2]

/-- C2 (amended): `extractCustomSections` captures, for each marker of the
fixed list that occurs in the content, the span from the marker occurrence
up to the next top-level-heading match or end of content, and concatenates
the captured spans in the order of the fixed marker list (not in document
order), separated by a blank line and trimmed; no marker yields the empty
string. -/
theorem extract_custom_sections_marker_order (content : List Char) :
    extractCustomSections content = extractSpecMarkerOrder content := by
  unfold extractCustomSections extractSpecMarkerOrder
  rw [extractLoop_eq_appendSpans, jsTrim_appendSpans]

/-- A content in which `## Custom Rules` precedes `## Project-Specific`
in the document; the fixed marker list visits them in the other order. -/
def c2CexContent : List Char :=
  "## Custom Rules\nA\n\n## Project-Specific\nB".toList

/-- C2 (counterexample): the extractor does not concatenate captured
sections in document order. -/
theorem extract_not_doc_order :
    extractCustomSections c2CexContent ≠ extractSpecDocOrder c2CexContent := by
  decide

/-! ### Witnesses for the merge theorems -/

/-- A skill file carrying a Project-Specific section with body text X. -/
def w1Content : List Char :=
  "# Skill\nBody\n\n## Project-Specific\nX text\n".toList

def w1Custom : String := ⟨extractCustomSections w1Content⟩

def w1Existing : ExistingConfig :=
  { skills := [⟨"code-reviewer", some "# Skill\nBody", w1Custom⟩],
    agents := [], hooks := [], custom := [] }

def w1New : NewConfig :=
  { skills := ["code-reviewer"], agents := [], hooks := [], custom := [] }

theorem merge_preserves_custom_sections_witness :
    mergeConfigurations w1Existing w1New "merge" =
      some (.merged
        (mergeComponents w1Existing.skills w1New.skills)
        (mergeComponents w1Existing.agents w1New.agents)
        (mergeComponents w1Existing.hooks w1New.hooks)
        (w1Existing.custom ++ w1New.custom)) ∧
    MergedComponent.updateItem "code-reviewer" w1Custom ∈
      mergeComponents w1Existing.skills w1New.skills :=
  merge_preserves_custom_sections w1Existing w1New "code-reviewer"
    ⟨"code-reviewer", some "# Skill\nBody", w1Custom⟩
    (by decide) (by decide) (by decide)

def w3Existing : ExistingConfig :=
  { skills := [⟨"A", some "content of A", ""⟩, ⟨"B", some "content of B", ""⟩],
    agents := [], hooks := [], custom := [] }

def w3New : NewConfig :=
  { skills := ["A"], agents := [], hooks := [], custom := [] }

theorem merge_retains_unrequested_witness :
    mergeConfigurations w3Existing w3New "merge" =
      some (.merged
        (mergeComponents w3Existing.skills w3New.skills)
        (mergeComponents w3Existing.agents w3New.agents)
        (mergeComponents w3Existing.hooks w3New.hooks)
        (w3Existing.custom ++ w3New.custom)) ∧
    MergedComponent.existingItem "B" (some "content of B") "" ∈
      mergeComponents w3Existing.skills w3New.skills :=
  merge_retains_unrequested w3Existing w3New "B"
    ⟨"B", some "content of B", ""⟩ (by decide) (by decide)

/-! ## Recommendation engine (`analyzeProject`, `recommendationRules`)

A context is a plain object whose fields may all be absent (`none`).  A
rule condition is a JavaScript function evaluated inside try/catch: it may
throw (`Except.error`) or produce a boolean.  All production conditions
use optional chaining, so an absent field makes them return `false`
rather than throw.  `conditionSrc` models `condition.toString()`, the
exact source text compared against the always-apply sentinel. -/

structure Ctx where
  architecture : Option (List String) := none
  concerns : Option (List String) := none
  techStack : Option (List String) := none
  targetUsers : Option String := none
  projectType : Option String := none
  hasApi : Option Bool := none
deriving DecidableEq, Repr

structure Rule where
  condition : Ctx → Except Unit Bool
  conditionSrc : String
  skills : List String
  agents : List String
  hooks : List String
  reason : String

structure RecommendationResult where
  skills : List String
  agents : List String
  hooks : List String
  reasons : List String
deriving DecidableEq, Repr

/-- `ctx.field?.includes(tag)`: `false` when the field is absent. -/
def ctxHas (field : Option (List String)) (tag : String) : Bool :=
  (field.getD []).contains tag

/-- The final entry of the production rule table: the always-apply
sentinel. -/
def prodAlwaysRule : Rule :=
  { condition := fun _ => .ok true,
    conditionSrc := "() => true",
    skills := ["code-reviewer", "commit-msg-generator", "git-workflow"],
    agents := ["code-reviewer"],
    hooks := ["session-context-loader"],
    reason := "Essential skills for any software project" }

/-- The production `recommendationRules` table, in source order.
`conditionSrc` spells the JavaScript source of each arrow function, with
apostrophes written as \x27 escapes. -/
def recommendationRules : List Rule :=
  [ { condition := fun ctx => .ok (ctxHas ctx.architecture "clean-architecture"),
      conditionSrc := "(ctx) => ctx.architecture?.includes(\x27clean-architecture\x27)",
      skills := ["refactoring-advisor", "naming-conventions", "code-reviewer"],
      agents := ["architect", "refactorer"],
      hooks := ["layer-violation-blocker"],
      reason := "Clean Architecture requires strict layer boundaries and naming conventions" },
    { condition := fun ctx => .ok (ctxHas ctx.architecture "vertical-slice"),
      conditionSrc := "(ctx) => ctx.architecture?.includes(\x27vertical-slice\x27)",
      skills := ["refactoring-advisor", "code-reviewer"],
      agents := ["architect"],
      hooks := [],
      reason := "Vertical Slice Architecture benefits from feature-focused organization" },
    { condition := fun ctx => .ok (ctxHas ctx.architecture "cqrs"),
      conditionSrc := "(ctx) => ctx.architecture?.includes(\x27cqrs\x27)",
      skills := ["code-reviewer", "naming-conventions"],
      agents := ["architect"],
      hooks := [],
      reason := "CQRS pattern requires clear separation of commands and queries" },
    { condition := fun ctx => .ok (ctxHas ctx.architecture "microservices"),
      conditionSrc := "(ctx) => ctx.architecture?.includes(\x27microservices\x27)",
      skills := ["api-design-reviewer", "logging-standards", "error-handling-patterns"],
      agents := ["architect", "debugger"],
      hooks := [],
      reason := "Microservices require robust API design and observability" },
    { condition := fun ctx => .ok (ctxHas ctx.concerns "data-integrity"),
      conditionSrc := "(ctx) => ctx.concerns?.includes(\x27data-integrity\x27)",
      skills := ["database-reviewer", "test-writer", "error-handling-patterns"],
      agents := ["test-runner", "migrator"],
      hooks := ["quality-gate"],
      reason := "Data integrity requires comprehensive testing and safe migrations" },
    { condition := fun ctx => .ok (ctxHas ctx.concerns "security"),
      conditionSrc := "(ctx) => ctx.concerns?.includes(\x27security\x27)",
      skills := ["security-auditor", "dependency-auditor", "error-handling-patterns"],
      agents := ["security-auditor"],
      hooks := ["secrets-scanner", "quality-gate"],
      reason := "Security concerns require proactive vulnerability scanning" },
    { condition := fun ctx => .ok (ctxHas ctx.concerns "performance"),
      conditionSrc := "(ctx) => ctx.concerns?.includes(\x27performance\x27)",
      skills := ["performance-analyzer", "database-reviewer"],
      agents := ["debugger"],
      hooks := [],
      reason := "Performance optimization needs systematic analysis" },
    { condition := fun ctx => .ok (ctxHas ctx.concerns "accessibility"),
      conditionSrc := "(ctx) => ctx.concerns?.includes(\x27accessibility\x27)",
      skills := ["accessibility-auditor", "ux-reviewer"],
      agents := [],
      hooks := [],
      reason := "Accessibility requires WCAG compliance validation" },
    { condition := fun ctx => .ok (ctxHas ctx.concerns "user-experience"),
      conditionSrc := "(ctx) => ctx.concerns?.includes(\x27user-experience\x27)",
      skills := ["ux-reviewer", "accessibility-auditor"],
      agents := [],
      hooks := [],
      reason := "Great UX requires usability heuristic evaluation" },
    { condition := fun ctx => .ok (ctxHas ctx.concerns "test-coverage"),
      conditionSrc := "(ctx) => ctx.concerns?.includes(\x27test-coverage\x27)",
      skills := ["test-writer", "code-reviewer"],
      agents := ["test-runner"],
      hooks := ["quality-gate"],
      reason := "High test coverage requires systematic test writing" },
    { condition := fun ctx => .ok (ctxHas ctx.concerns "documentation"),
      conditionSrc := "(ctx) => ctx.concerns?.includes(\x27documentation\x27)",
      skills := ["doc-generator", "commit-msg-generator"],
      agents := ["doc-engineer", "onboarder"],
      hooks := ["changelog-reminder"],
      reason := "Good documentation needs consistent generation and updates" },
    { condition := fun ctx => .ok (ctx.targetUsers == some "non-technical"),
      conditionSrc := "(ctx) => ctx.targetUsers === \x27non-technical\x27",
      skills := ["accessibility-auditor", "ux-reviewer"],
      agents := [],
      hooks := [],
      reason := "Non-technical users need accessible, intuitive interfaces" },
    { condition := fun ctx => .ok (ctxHas ctx.techStack "angular" ||
        ctxHas ctx.techStack "react" || ctxHas ctx.techStack "nextjs"),
      conditionSrc := "(ctx) => ctx.techStack?.includes(\x27angular\x27) || ctx.techStack?.includes(\x27react\x27) || ctx.techStack?.includes(\x27nextjs\x27)",
      skills := ["accessibility-auditor", "ux-reviewer", "performance-analyzer", "test-writer"],
      agents := ["test-runner"],
      hooks := ["post-edit-format"],
      reason := "Frontend frameworks benefit from UX validation and formatting" },
    { condition := fun ctx => .ok (ctxHas ctx.techStack "angular"),
      conditionSrc := "(ctx) => ctx.techStack?.includes(\x27angular\x27)",
      skills := ["naming-conventions", "test-writer"],
      agents := ["test-runner"],
      hooks := ["pre-commit-lint"],
      reason := "Angular projects need strict conventions and testing" },
    { condition := fun ctx => .ok (ctxHas ctx.techStack "react" || ctxHas ctx.techStack "nextjs"),
      conditionSrc := "(ctx) => ctx.techStack?.includes(\x27react\x27) || ctx.techStack?.includes(\x27nextjs\x27)",
      skills := ["performance-analyzer", "test-writer"],
      agents := ["test-runner"],
      hooks := ["pre-commit-lint"],
      reason := "React projects benefit from performance optimization" },
    { condition := fun ctx => .ok (ctxHas ctx.techStack "dotnet"),
      conditionSrc := "(ctx) => ctx.techStack?.includes(\x27dotnet\x27)",
      skills := ["naming-conventions", "code-reviewer", "test-writer"],
      agents := ["architect", "test-runner"],
      hooks := ["pre-commit-lint", "post-edit-format"],
      reason := ".NET projects need consistent conventions and architecture" },
    { condition := fun ctx => .ok (ctxHas ctx.techStack "ef-core" || ctxHas ctx.techStack "sql"),
      conditionSrc := "(ctx) => ctx.techStack?.includes(\x27ef-core\x27) || ctx.techStack?.includes(\x27sql\x27)",
      skills := ["database-reviewer"],
      agents := ["migrator"],
      hooks := [],
      reason := "Database work needs migration safety and query optimization" },
    { condition := fun ctx => .ok (ctxHas ctx.techStack "nodejs"),
      conditionSrc := "(ctx) => ctx.techStack?.includes(\x27nodejs\x27)",
      skills := ["logging-standards", "error-handling-patterns", "dependency-auditor"],
      agents := ["debugger"],
      hooks := ["pre-commit-lint", "post-edit-format"],
      reason := "Node.js projects need good error handling and dependency management" },
    { condition := fun ctx => .ok (ctxHas ctx.techStack "typescript"),
      conditionSrc := "(ctx) => ctx.techStack?.includes(\x27typescript\x27)",
      skills := ["naming-conventions", "code-reviewer"],
      agents := [],
      hooks := ["pre-commit-lint"],
      reason := "TypeScript benefits from strict naming and type checking" },
    { condition := fun ctx => .ok (ctxHas ctx.techStack "python"),
      conditionSrc := "(ctx) => ctx.techStack?.includes(\x27python\x27)",
      skills := ["naming-conventions", "test-writer", "doc-generator"],
      agents := ["test-runner"],
      hooks := ["pre-commit-lint", "post-edit-format"],
      reason := "Python projects need PEP8 compliance and documentation" },
    { condition := fun ctx => .ok (ctxHas ctx.techStack "docker" || ctxHas ctx.techStack "kubernetes"),
      conditionSrc := "(ctx) => ctx.techStack?.includes(\x27docker\x27) || ctx.techStack?.includes(\x27kubernetes\x27)",
      skills := ["security-auditor"],
      agents := ["architect"],
      hooks := ["secrets-scanner"],
      reason := "Container environments need security hardening" },
    { condition := fun ctx => .ok (ctx.hasApi.getD false),
      conditionSrc := "(ctx) => ctx.hasApi",
      skills := ["api-design-reviewer", "doc-generator", "security-auditor"],
      agents := ["doc-engineer"],
      hooks := [],
      reason := "APIs benefit from design validation and documentation" },
    { condition := fun ctx => .ok (ctx.projectType == some "cli-tool"),
      conditionSrc := "(ctx) => ctx.projectType === \x27cli-tool\x27",
      skills := ["doc-generator", "error-handling-patterns"],
      agents := ["doc-engineer"],
      hooks := [],
      reason := "CLI tools need good documentation and error handling" },
    { condition := fun ctx => .ok (ctx.projectType == some "monorepo"),
      conditionSrc := "(ctx) => ctx.projectType === \x27monorepo\x27",
      skills := ["naming-conventions", "git-workflow"],
      agents := ["architect"],
      hooks := ["branch-protection"],
      reason := "Monorepos need consistent conventions across packages" },
    prodAlwaysRule ]

/-- The rule loop of `analyzeProject`: a throwing condition is caught and
the rule skipped; a truthy condition unions the rule contributions into
the sets and pushes the reason unless the rule is the always-apply
sentinel or the reason is falsy. -/
def evalGo (ctx : Ctx) (rules : List Rule) (acc : RecommendationResult) :
    RecommendationResult :=
  match rules with
  | [] => acc
  | r :: rest =>
    match r.condition ctx with
    | .error _ => evalGo ctx rest acc
    | .ok false => evalGo ctx rest acc
    | .ok true =>
      evalGo ctx rest
        { skills := addAll acc.skills r.skills,
          agents := addAll acc.agents r.agents,
          hooks := addAll acc.hooks r.hooks,
          reasons :=
            if r.reason ≠ "" ∧ r.conditionSrc ≠ "() => true" then
              acc.reasons ++ [r.reason]
            else acc.reasons }

/-- Rule evaluation over an arbitrary rule table (the loop body of
`analyzeProject`); the reasons list is deduplicated at the end. -/
def evaluateRules (rules : List Rule) (ctx : Ctx) : RecommendationResult :=
  let acc := evalGo ctx rules ⟨[], [], [], []⟩
  { acc with reasons := dedupFirst acc.reasons }

/-- `analyzeProject(context)`: evaluation of the production table. -/
def analyzeProject (ctx : Ctx) : RecommendationResult :=
  evaluateRules recommendationRules ctx

/-! ### Engine lemmas -/

/-- The reasons pushed by the loop, in rule order. -/
def collectReasons (ctx : Ctx) (rules : List Rule) : List String :=
  rules.filterMap (fun r => match r.condition ctx with
    | .ok true =>
      if r.reason ≠ "" ∧ r.conditionSrc ≠ "() => true" then some r.reason else none
    | _ => none)

theorem evalGo_reasons_eq (ctx : Ctx) (rules : List Rule) :
    ∀ acc, (evalGo ctx rules acc).reasons = acc.reasons ++ collectReasons ctx rules := by
  induction rules with
  | nil => intro acc; simp [evalGo, collectReasons]
  | cons rhead rest ih =>
    intro acc
    cases h : rhead.condition ctx with
    | error e => simp [evalGo, h, ih, collectReasons]
    | ok b =>
      cases b
      · simp [evalGo, h, ih, collectReasons]
      · by_cases hcond : rhead.reason ≠ "" ∧ rhead.conditionSrc ≠ "() => true"
        · simp [evalGo, h, ih, collectReasons, hcond]
        · simp [evalGo, h, ih, collectReasons, hcond]

theorem mem_collectReasons {ctx : Ctx} {rules : List Rule} {r : String} :
    r ∈ collectReasons ctx rules ↔
      ∃ rule, rule ∈ rules ∧ rule.condition ctx = .ok true ∧ rule.reason = r ∧
        rule.reason ≠ "" ∧ rule.conditionSrc ≠ "() => true" := by
  unfold collectReasons
  rw [List.mem_filterMap]
  constructor
  · rintro ⟨a, ha, hf⟩
    cases hc : a.condition ctx with
    | error e => rw [hc] at hf; cases hf
    | ok b =>
      cases b
      · rw [hc] at hf; cases hf
      · rw [hc] at hf
        by_cases hcond : a.reason ≠ "" ∧ a.conditionSrc ≠ "() => true"
        · rw [if_pos hcond] at hf
          exact ⟨a, ha, hc, (Option.some_inj.mp hf), hcond.1, hcond.2⟩
        · rw [if_neg hcond] at hf; cases hf
  · rintro ⟨rule, hmem, hok, hr, hne, hsrc⟩
    exact ⟨rule, hmem, by rw [hok, if_pos ⟨hne, hsrc⟩, hr]⟩

theorem evalGo_skills_mem (ctx : Ctx) (rules : List Rule) {x : String} :
    ∀ acc, x ∈ acc.skills → x ∈ (evalGo ctx rules acc).skills := by
  induction rules with
  | nil => exact fun _ hx => hx
  | cons rhead rest ih =>
    intro acc hx
    cases h : rhead.condition ctx with
    | error e => simp only [evalGo, h]; exact ih _ hx
    | ok b =>
      cases b
      · simp only [evalGo, h]; exact ih _ hx
      · simp only [evalGo, h]; exact ih _ (mem_addAll.mpr (Or.inl hx))

theorem evalGo_agents_mem (ctx : Ctx) (rules : List Rule) {x : String} :
    ∀ acc, x ∈ acc.agents → x ∈ (evalGo ctx rules acc).agents := by
  induction rules with
  | nil => exact fun _ hx => hx
  | cons rhead rest ih =>
    intro acc hx
    cases h : rhead.condition ctx with
    | error e => simp only [evalGo, h]; exact ih _ hx
    | ok b =>
      cases b
      · simp only [evalGo, h]; exact ih _ hx
      · simp only [evalGo, h]; exact ih _ (mem_addAll.mpr (Or.inl hx))

theorem evalGo_hooks_mem (ctx : Ctx) (rules : List Rule) {x : String} :
    ∀ acc, x ∈ acc.hooks → x ∈ (evalGo ctx rules acc).hooks := by
  induction rules with
  | nil => exact fun _ hx => hx
  | cons rhead rest ih =>
    intro acc hx
    cases h : rhead.condition ctx with
    | error e => simp only [evalGo, h]; exact ih _ hx
    | ok b =>
      cases b
      · simp only [evalGo, h]; exact ih _ hx
      · simp only [evalGo, h]; exact ih _ (mem_addAll.mpr (Or.inl hx))

theorem evalGo_contrib (ctx : Ctx) (rules : List Rule) {rule : Rule}
    (hok : rule.condition ctx = .ok true) :
    ∀ acc, rule ∈ rules →
      (∀ s ∈ rule.skills, s ∈ (evalGo ctx rules acc).skills) ∧
      (∀ a ∈ rule.agents, a ∈ (evalGo ctx rules acc).agents) ∧
      (∀ h ∈ rule.hooks, h ∈ (evalGo ctx rules acc).hooks) := by
  induction rules with
  | nil => intro acc h; cases h
  | cons rhead rest ih =>
    intro acc hmem
    rcases List.mem_cons.mp hmem with heq | hrest
    · subst heq
      simp only [evalGo, hok]
      exact ⟨fun s hs => evalGo_skills_mem _ _ _ (mem_addAll.mpr (Or.inr hs)),
        fun a ha => evalGo_agents_mem _ _ _ (mem_addAll.mpr (Or.inr ha)),
        fun h hh => evalGo_hooks_mem _ _ _ (mem_addAll.mpr (Or.inr hh))⟩
    · cases h : rhead.condition ctx with
      | error e => simp only [evalGo, h]; exact ih _ hrest
      | ok b =>
        cases b
        · simp only [evalGo, h]; exact ih _ hrest
        · simp only [evalGo, h]; exact ih _ hrest

theorem mem_evaluateRules_reasons {rules : List Rule} {ctx : Ctx} {r : String} :
    r ∈ (evaluateRules rules ctx).reasons ↔
      ∃ rule, rule ∈ rules ∧ rule.condition ctx = .ok true ∧ rule.reason = r ∧
        rule.reason ≠ "" ∧ rule.conditionSrc ≠ "() => true" := by
  show r ∈ dedupFirst (evalGo ctx rules ⟨[], [], [], []⟩).reasons ↔ _
  rw [mem_dedupFirst, evalGo_reasons_eq]
  simpa using mem_collectReasons

/-- C4 (amended): a throwing or falsy condition only skips its own rule;
the result includes the skills, agents and hooks of every rule whose
condition evaluates to true without throwing, and such a rule's reason
whenever the reason is non-empty and the rule is not the always-apply
sentinel. -/
theorem evaluate_nonthrowing_contributions (rules : List Rule) (ctx : Ctx)
    (rule : Rule) (hmem : rule ∈ rules) (hok : rule.condition ctx = .ok true) :
    (∀ s ∈ rule.skills, s ∈ (evaluateRules rules ctx).skills) ∧
    (∀ a ∈ rule.agents, a ∈ (evaluateRules rules ctx).agents) ∧
    (∀ h ∈ rule.hooks, h ∈ (evaluateRules rules ctx).hooks) ∧
    (rule.reason ≠ "" → rule.conditionSrc ≠ "() => true" →
      rule.reason ∈ (evaluateRules rules ctx).reasons) := by
  obtain ⟨hs, ha, hh⟩ := evalGo_contrib ctx rules hok ⟨[], [], [], []⟩ hmem
  exact ⟨hs, ha, hh, fun hne hsrc =>
    mem_evaluateRules_reasons.mpr ⟨rule, hmem, hok, rfl, hne, hsrc⟩⟩

/-- A rule whose condition throws on any context (a missing nested
field). -/
def c4ThrowRule : Rule :=
  { condition := fun _ => .error (),
    conditionSrc := "(ctx) => ctx.missing.nested.field",
    skills := ["x-skill"], agents := [], hooks := [], reason := "throwing rule" }

/-- The always-apply sentinel shape with a non-empty reason. -/
def c4AlwaysRule : Rule :=
  { condition := fun _ => .ok true,
    conditionSrc := "() => true",
    skills := ["always-skill"], agents := ["always-agent"],
    hooks := ["always-hook"], reason := "always reason" }

/-- C4 (counterexample): with a throwing rule present, the sentinel rule
is non-throwing and truthy and its components are included, yet its
reason is not in the reasons list — so the result does not include the
reason contribution of every non-throwing truthy rule. -/
theorem evaluate_sentinel_reason_excluded_cex :
    c4AlwaysRule.condition {} = .ok true ∧
    "always-skill" ∈ (evaluateRules [c4ThrowRule, c4AlwaysRule] {}).skills ∧
    c4AlwaysRule.reason ∉ (evaluateRules [c4ThrowRule, c4AlwaysRule] {}).reasons := by
  refine ⟨rfl, by decide, by decide⟩

/-- C4 witness: the general theorem applied to the concrete two-rule
table above, at the rule whose condition does not throw. -/
theorem evaluate_nonthrowing_contributions_witness :
    "always-skill" ∈ (evaluateRules [c4ThrowRule, c4AlwaysRule] {}).skills :=
  (evaluate_nonthrowing_contributions [c4ThrowRule, c4AlwaysRule] {} c4AlwaysRule
    (List.mem_cons_of_mem _ (List.mem_cons_self _ _)) rfl).1 "always-skill" (by decide)

/-- C5: an always-apply rule (condition always true, source text exactly
the sentinel) contributes its skills, agents and hooks on any context and
every reason in the output arises from a non-sentinel rule; evaluating
the production table on the empty context yields exactly the
unconditional rule's output with an empty reasons list. -/
theorem always_rule_contributes (rules : List Rule) (ctx : Ctx) (rule : Rule)
    (hmem : rule ∈ rules) (hsem : ∀ c, rule.condition c = .ok true)
    (hsrc : rule.conditionSrc = "() => true") :
    (∀ s ∈ rule.skills, s ∈ (evaluateRules rules ctx).skills) ∧
    (∀ a ∈ rule.agents, a ∈ (evaluateRules rules ctx).agents) ∧
    (∀ h ∈ rule.hooks, h ∈ (evaluateRules rules ctx).hooks) ∧
    (∀ r ∈ (evaluateRules rules ctx).reasons,
      ∃ ru, ru ∈ rules ∧ ru.reason = r ∧ ru.conditionSrc ≠ "() => true") ∧
    analyzeProject {} =
      ⟨["code-reviewer", "commit-msg-generator", "git-workflow"],
       ["code-reviewer"], ["session-context-loader"], []⟩ := by
  obtain ⟨hs, ha, hh⟩ := evalGo_contrib ctx rules (hsem ctx) ⟨[], [], [], []⟩ hmem
  refine ⟨hs, ha, hh, ?_, by decide⟩
  intro r hr
  obtain ⟨ru, hru, _, hrr, _, hsr⟩ := mem_evaluateRules_reasons.mp hr
  exact ⟨ru, hru, hrr, hsr⟩

/-- C5 witness: the theorem applied to the production table's sentinel
rule on the empty context. -/
theorem always_rule_contributes_witness :
    "code-reviewer" ∈ (evaluateRules recommendationRules {}).skills ∧
    analyzeProject {} =
      ⟨["code-reviewer", "commit-msg-generator", "git-workflow"],
       ["code-reviewer"], ["session-context-loader"], []⟩ := by
  have h := always_rule_contributes recommendationRules {} prodAlwaysRule
    (by simp [recommendationRules]) (fun _ => rfl) rfl
  exact ⟨h.1 "code-reviewer" (by decide), h.2.2.2.2⟩

/-- C10 (amended): a reason string is in the output exactly when some rule
with a truthy non-throwing condition carries it, the reason is non-empty,
and the rule's condition source text is not exactly the sentinel text. -/
theorem reasons_iff_nonsentinel_source (rules : List Rule) (ctx : Ctx) (r : String) :
    r ∈ (evaluateRules rules ctx).reasons ↔
      ∃ rule, rule ∈ rules ∧ rule.condition ctx = .ok true ∧ rule.reason = r ∧
        rule.reason ≠ "" ∧ rule.conditionSrc ≠ "() => true" :=
  mem_evaluateRules_reasons

/-- A rule that always returns true but whose source text differs from the
sentinel and whose reason is the empty (falsy) string. -/
def c10Rule : Rule :=
  { condition := fun _ => .ok true,
    conditionSrc := "(ctx) => true",
    skills := ["some-skill"], agents := [], hooks := [], reason := "" }

/-- C10 (counterexample): a rule whose condition always returns true and
whose source text is not the sentinel, yet whose (empty) reason is not
appended to the reasons list. -/
theorem empty_reason_not_appended :
    c10Rule.condition {} = .ok true ∧
    c10Rule.conditionSrc ≠ "() => true" ∧
    c10Rule.reason ∉ (evaluateRules [c10Rule] {}).reasons := by
  refine ⟨rfl, by decide, by decide⟩

/-- A rule used to instantiate the reasons characterization. -/
def c10WitnessRule : Rule :=
  { condition := fun _ => .ok true,
    conditionSrc := "(ctx) => true",
    skills := [], agents := [], hooks := [], reason := "a visible reason" }

/-- C10 witness: the characterization at a concrete one-rule table. -/
theorem reasons_iff_nonsentinel_source_witness :
    "a visible reason" ∈ (evaluateRules [c10WitnessRule] {}).reasons ↔
      ∃ rule, rule ∈ [c10WitnessRule] ∧ rule.condition {} = .ok true ∧
        rule.reason = "a visible reason" ∧ rule.reason ≠ "" ∧
        rule.conditionSrc ≠ "() => true" :=
  reasons_iff_nonsentinel_source [c10WitnessRule] {} "a visible reason"

/-! ## Diff reporting (`getDiffSummary`) -/

structure DiffSection where
  added : List String
  removed : List String
  kept : List String
deriving DecidableEq, Repr

structure MergeDiff where
  skills : DiffSection
  agents : DiffSection
  hooks : DiffSection
deriving DecidableEq, Repr

/-- One component kind of `getDiffSummary`: names are collected into
`Set`s (first-occurrence order) and the three lists are produced by
spread-and-filter. -/
def diffNames (existingNames requestedNames : List String) : DiffSection :=
  let eS := dedupFirst existingNames
  let nS := dedupFirst requestedNames
  { added := nS.filter (fun s => !(eS.contains s)),
    removed := eS.filter (fun s => !(nS.contains s)),
    kept := nS.filter (fun s => eS.contains s) }

/-- `getDiffSummary(existing, newConfig)`. -/
def getDiffSummary (existing : ExistingConfig) (newConfig : NewConfig) : MergeDiff :=
  { skills := diffNames (existing.skills.map ExistingItem.name) newConfig.skills,
    agents := diffNames (existing.agents.map ExistingItem.name) newConfig.agents,
    hooks := diffNames (existing.hooks.map ExistingItem.name) newConfig.hooks }

/-- What the claim requires of one diff section: exact membership
characterizations, pairwise disjointness, and coverage of the union. -/
def diffSectionCorrect (eNames rNames : List String) (d : DiffSection) : Prop :=
  (∀ x, x ∈ d.added ↔ x ∈ rNames ∧ x ∉ eNames) ∧
  (∀ x, x ∈ d.removed ↔ x ∈ eNames ∧ x ∉ rNames) ∧
  (∀ x, x ∈ d.kept ↔ x ∈ rNames ∧ x ∈ eNames) ∧
  (∀ x, ¬ (x ∈ d.added ∧ x ∈ d.removed)) ∧
  (∀ x, ¬ (x ∈ d.added ∧ x ∈ d.kept)) ∧
  (∀ x, ¬ (x ∈ d.removed ∧ x ∈ d.kept)) ∧
  (∀ x, (x ∈ eNames ∨ x ∈ rNames) ↔ (x ∈ d.added ∨ x ∈ d.removed ∨ x ∈ d.kept))

theorem diffNames_correct (e r : List String) : diffSectionCorrect e r (diffNames e r) := by
  have hpos : ∀ (l : List String) (x : String), l.contains x = true ↔ x ∈ l := by
    intro l x
    induction l with
    | nil => simp
    | cons a l ih =>
      simp only [List.contains_cons, Bool.or_eq_true, beq_iff_eq, ih, List.mem_cons]
  have hneg : ∀ (l : List String) (x : String), (!(l.contains x)) = true ↔ x ∉ l := by
    intro l x
    rw [Bool.not_eq_true', Bool.eq_false_iff]
    exact not_congr (hpos l x)
  refine ⟨fun x => ?_, fun x => ?_, fun x => ?_, fun x => ?_, fun x => ?_, fun x => ?_, fun x => ?_⟩ <;>
    simp only [diffNames, List.mem_filter, mem_dedupFirst, hpos, hneg] <;>
    tauto

/-- C8: for every existing and requested configuration and each component
kind, `added` is exactly the requested names absent from existing,
`removed` exactly the existing names absent from requested, `kept` the
intersection, and the three lists partition the union without overlap. -/
theorem diff_partitions_names (existing : ExistingConfig) (cfg : NewConfig) :
    diffSectionCorrect (existing.skills.map ExistingItem.name) cfg.skills
      (getDiffSummary existing cfg).skills ∧
    diffSectionCorrect (existing.agents.map ExistingItem.name) cfg.agents
      (getDiffSummary existing cfg).agents ∧
    diffSectionCorrect (existing.hooks.map ExistingItem.name) cfg.hooks
      (getDiffSummary existing cfg).hooks :=
  ⟨diffNames_correct _ _, diffNames_correct _ _, diffNames_correct _ _⟩

def w8Existing : ExistingConfig :=
  { skills := [⟨"kept-skill", none, ""⟩, ⟨"old-skill", none, ""⟩],
    agents := [], hooks := [], custom := [] }

def w8New : NewConfig :=
  { skills := ["kept-skill", "new-skill"], agents := [], hooks := [], custom := [] }

/-- C8 witness: the added-characterization of the theorem at a concrete
configuration pair and name. -/
theorem diff_partitions_names_witness :
    "new-skill" ∈ (getDiffSummary w8Existing w8New).skills.added ↔
      "new-skill" ∈ w8New.skills ∧
        "new-skill" ∉ w8Existing.skills.map ExistingItem.name :=
  (diff_partitions_names w8Existing w8New).1.1 "new-skill"

/-! ## Backup manager (`listBackups`, `cleanupBackups`)

A backup-capable project directory is modelled as the list of its
directory entries; `created` is the `stat.birthtime` and `rmFails` models
whether `fs.rm` on this entry fails (the try/catch in the cleanup loop).
The remaining-entries component of the result captures the filesystem
state after the removals. -/

/-- JavaScript `s.startsWith(pre)` (structural, on the char lists). -/
def strStartsWith (s pre : String) : Bool :=
  pre.toList.isPrefixOf s.toList

structure BackupEntry where
  name : String
  created : Nat
  rmFails : Bool
deriving DecidableEq, Repr

/-- Stable insertion step for the sort `(a, b) => b.created - a.created`
(descending by creation time). -/
def insertDesc (x : BackupEntry) : List BackupEntry → List BackupEntry
  | [] => [x]
  | y :: ys => if y.created ≤ x.created then x :: y :: ys else y :: insertDesc x ys

def sortDesc (l : List BackupEntry) : List BackupEntry := l.foldr insertDesc []

/-- `listBackups(projectPath)`: directory entries whose name starts with
the backup prefix, sorted newest-first by creation time. -/
def listBackups (fsEntries : List BackupEntry) : List BackupEntry :=
  sortDesc (fsEntries.filter (fun e => strStartsWith e.name ".claude.backup."))

/-- `cleanupBackups(projectPath, keepCount)`.  Result: the directory
entries still present afterwards, the returned `removed` count, and the
returned `kept` count. -/
def cleanupBackups (fsEntries : List BackupEntry) (keepCount : Nat) :
    List BackupEntry × Nat × Nat :=
  let backups := listBackups fsEntries
  if backups.length ≤ keepCount then (fsEntries, 0, backups.length)
  else
    let toRemove := backups.drop keepCount
    let removedNames := (toRemove.filter (fun b => !b.rmFails)).map BackupEntry.name
    (fsEntries.filter (fun e => !(removedNames.contains e.name)),
      removedNames.length, keepCount)

/-! ### Sorting lemmas -/

theorem insertDesc_perm (x : BackupEntry) (l : List BackupEntry) :
    List.Perm (insertDesc x l) (x :: l) := by
  induction l with
  | nil => exact List.Perm.refl _
  | cons y ys ih =>
    by_cases h : y.created ≤ x.created
    · rw [insertDesc, if_pos h]
    · rw [insertDesc, if_neg h]
      exact (ih.cons y).trans (List.Perm.swap x y ys)

theorem sortDesc_perm (l : List BackupEntry) : List.Perm (sortDesc l) l := by
  induction l with
  | nil => exact List.Perm.refl _
  | cons x xs ih => exact (insertDesc_perm x (sortDesc xs)).trans (ih.cons x)

theorem insertDesc_pairwise {x : BackupEntry} {l : List BackupEntry}
    (h : l.Pairwise (fun a b => b.created ≤ a.created)) :
    (insertDesc x l).Pairwise (fun a b => b.created ≤ a.created) := by
  induction l with
  | nil => simp [insertDesc]
  | cons y ys ih =>
    rw [List.pairwise_cons] at h
    by_cases hxy : y.created ≤ x.created
    · rw [insertDesc, if_pos hxy, List.pairwise_cons]
      refine ⟨?_, List.pairwise_cons.mpr h⟩
      intro z hz
      rcases List.mem_cons.mp hz with rfl | hz
      · exact hxy
      · exact le_trans (h.1 z hz) hxy
    · rw [insertDesc, if_neg hxy, List.pairwise_cons]
      refine ⟨?_, ih h.2⟩
      intro z hz
      rcases List.mem_cons.mp ((insertDesc_perm x ys).mem_iff.mp hz) with rfl | hz
      · exact le_of_not_le hxy
      · exact h.1 z hz

theorem sortDesc_pairwise (l : List BackupEntry) :
    (sortDesc l).Pairwise (fun a b => b.created ≤ a.created) := by
  induction l with
  | nil => simp [sortDesc]
  | cons x xs ih => exact insertDesc_pairwise ih

theorem contains_iff_mem (l : List String) (x : String) : l.contains x = true ↔ x ∈ l := by
  induction l with
  | nil => simp
  | cons a l ih => simp only [List.contains_cons, Bool.or_eq_true, beq_iff_eq, ih, List.mem_cons]

/-- C9 (amended): `prune` keeps the `keep` most-recently-created
snapshots; a failure to remove one snapshot does not prevent removing the
others, and the returned `removed` count is the number actually removed,
while the returned `kept` count is the requested keep count (the number
of backups when nothing is pruned), not the number actually remaining. -/
theorem cleanup_backups_best_effort (fsEntries : List BackupEntry) (keep : Nat)
    (hall : ∀ b ∈ fsEntries, strStartsWith b.name ".claude.backup." = true)
    (hnodup : (fsEntries.map BackupEntry.name).Nodup) :
    (cleanupBackups fsEntries keep).2.1 =
      (((listBackups fsEntries).drop keep).filter (fun b => !b.rmFails)).length ∧
    ((∀ b ∈ fsEntries, b.rmFails = false) →
      (cleanupBackups fsEntries keep).1.length = min keep fsEntries.length ∧
      (cleanupBackups fsEntries keep).2.1 = fsEntries.length - min keep fsEntries.length ∧
      (∀ x ∈ (cleanupBackups fsEntries keep).1, ∀ y ∈ fsEntries,
        y.name ∉ (cleanupBackups fsEntries keep).1.map BackupEntry.name →
        y.created ≤ x.created)) := by
  have hfilter : fsEntries.filter (fun e => strStartsWith e.name ".claude.backup.") = fsEntries :=
    List.filter_eq_self.mpr hall
  have hbs : listBackups fsEntries = sortDesc fsEntries := by
    rw [listBackups, hfilter]
  have hperm : List.Perm (listBackups fsEntries) fsEntries := hbs ▸ sortDesc_perm fsEntries
  have hlen : (listBackups fsEntries).length = fsEntries.length := hperm.length_eq
  by_cases hle : (listBackups fsEntries).length ≤ keep
  · have hcb : cleanupBackups fsEntries keep = (fsEntries, 0, (listBackups fsEntries).length) := by
      unfold cleanupBackups
      rw [if_pos hle]
    have hdrop : (listBackups fsEntries).drop keep = [] := List.drop_eq_nil_of_le hle
    have hlelen : fsEntries.length ≤ keep := hlen ▸ hle
    constructor
    · rw [hcb, hdrop]
      rfl
    · intro _
      refine ⟨?_, ?_, ?_⟩
      · rw [hcb, Nat.min_eq_right hlelen]
      · rw [hcb, Nat.min_eq_right hlelen, Nat.sub_self]
      · rw [hcb]
        intro x _ y hy hynot
        exact absurd (List.mem_map.mpr ⟨y, hy, rfl⟩) hynot
  · have hcb : cleanupBackups fsEntries keep =
        (fsEntries.filter (fun e =>
            !(((((listBackups fsEntries).drop keep).filter (fun b => !b.rmFails)).map
                BackupEntry.name).contains e.name)),
          ((((listBackups fsEntries).drop keep).filter (fun b => !b.rmFails)).map
            BackupEntry.name).length,
          keep) := by
      unfold cleanupBackups
      rw [if_neg hle]
    have hkeeple : keep ≤ fsEntries.length := le_of_lt (hlen ▸ not_le.mp hle)
    constructor
    · rw [hcb, List.length_map]
    · intro hfail
      set dp := (listBackups fsEntries).drop keep with hdpdef
      set tk := (listBackups fsEntries).take keep with htkdef
      have hfail' : ∀ b ∈ dp, (!b.rmFails) = true := by
        intro b hb
        rw [hfail b (hperm.mem_iff.mp (List.mem_of_mem_drop hb))]
        rfl
      have hremeq : dp.filter (fun b => !b.rmFails) = dp := List.filter_eq_self.mpr hfail'
      have hnodupbs : ((listBackups fsEntries).map BackupEntry.name).Nodup :=
        ((hperm.map BackupEntry.name).nodup_iff).mpr hnodup
      have hsplit : tk ++ dp = listBackups fsEntries :=
        List.take_append_drop keep (listBackups fsEntries)
      have hnodup2 : (tk.map BackupEntry.name ++ dp.map BackupEntry.name).Nodup := by
        rw [← List.map_append, hsplit]
        exact hnodupbs
      have hdisj : ∀ n, n ∈ tk.map BackupEntry.name → n ∉ dp.map BackupEntry.name := by
        intro n h1 h2
        exact (List.disjoint_of_nodup_append hnodup2) h1 h2
      have hptake : ∀ x ∈ tk, (!((dp.map BackupEntry.name).contains x.name)) = true := by
        intro x hx
        have hn : x.name ∉ dp.map BackupEntry.name :=
          hdisj x.name (List.mem_map.mpr ⟨x, hx, rfl⟩)
        rw [Bool.not_eq_true']
        rw [Bool.eq_false_iff]
        exact fun hc => hn ((contains_iff_mem _ _).mp hc)
      have hpdrop : ∀ x ∈ dp, (!((dp.map BackupEntry.name).contains x.name)) = false := by
        intro x hx
        have hn : x.name ∈ dp.map BackupEntry.name := List.mem_map.mpr ⟨x, hx, rfl⟩
        rw [Bool.not_eq_false']
        exact (contains_iff_mem _ _).mpr hn
      have hfiltbs : (listBackups fsEntries).filter (fun e =>
          !((dp.map BackupEntry.name).contains e.name)) = tk := by
        conv_lhs => rw [← hsplit]
        rw [List.filter_append, List.filter_eq_self.mpr hptake,
          List.filter_eq_nil_iff.mpr
            (by intro a ha; rw [hpdrop a ha]; exact fun hh => Bool.false_ne_true hh),
          List.append_nil]
      have hpermfilt : List.Perm
          (fsEntries.filter (fun e => !((dp.map BackupEntry.name).contains e.name))) tk := by
        rw [← hfiltbs]
        exact (hperm.filter _).symm
      refine ⟨?_, ?_, ?_⟩
      · rw [hcb]
        simp only [hremeq]
        rw [hpermfilt.length_eq, htkdef, List.length_take, hlen]
      · rw [hcb]
        simp only [hremeq]
        rw [List.length_map, hdpdef, List.length_drop, hlen, Nat.min_eq_left hkeeple]
      · rw [hcb]
        simp only [hremeq]
        intro x hx y hy hynot
        have hsorted : (listBackups fsEntries).Pairwise (fun a b => b.created ≤ a.created) := by
          rw [hbs]
          exact sortDesc_pairwise fsEntries
        have hpa := (List.pairwise_append.mp (hsplit ▸ hsorted)).2.2
        have hxmem := List.mem_filter.mp hx
        have hxtake : x ∈ tk := by
          rcases List.mem_append.mp (hsplit ▸ hperm.mem_iff.mpr hxmem.1) with h | h
          · exact h
          · rw [hpdrop x h] at hxmem
            exact absurd hxmem.2 (by simp)
        have hytake : y ∈ dp := by
          rcases List.mem_append.mp (hsplit ▸ hperm.mem_iff.mpr hy) with h | h
          · exfalso
            refine hynot (List.mem_map.mpr ⟨y, List.mem_filter.mpr ⟨hy, hptake y h⟩, rfl⟩)
          · exact h
        exact hpa x hxtake y hytake

/-- Three backups where removing the newest of the two prune candidates
fails: the prune still removes the other candidate, but reports
`kept = keepCount` although two backups actually remain. -/
def c9CexFs : List BackupEntry :=
  [⟨".claude.backup.t1", 1, false⟩,
   ⟨".claude.backup.t2", 2, true⟩,
   ⟨".claude.backup.t3", 3, false⟩]

/-- C9 (counterexample): when one removal fails, the returned `kept`
count (the requested keep count) is not the actual number of snapshots
remaining. -/
theorem cleanup_kept_count_not_actual :
    (cleanupBackups c9CexFs 1).2.2 = 1 ∧
    ((cleanupBackups c9CexFs 1).1.filter
      (fun e => strStartsWith e.name ".claude.backup.")).length = 2 ∧
    (cleanupBackups c9CexFs 1).2.2 ≠
      ((cleanupBackups c9CexFs 1).1.filter
        (fun e => strStartsWith e.name ".claude.backup.")).length := by
  exact ⟨by decide, by decide, by decide⟩

/-- Five backups, none of whose removals fail. -/
def c9WitnessFs : List BackupEntry :=
  [⟨".claude.backup.t1", 1, false⟩, ⟨".claude.backup.t2", 2, false⟩,
   ⟨".claude.backup.t3", 3, false⟩, ⟨".claude.backup.t4", 4, false⟩,
   ⟨".claude.backup.t5", 5, false⟩]

/-- C9 witness: pruning 5 backups with keep = 2 leaves 2 snapshots and
reports 3 removed. -/
theorem cleanup_backups_best_effort_witness :
    (cleanupBackups c9WitnessFs 2).1.length = min 2 c9WitnessFs.length ∧
    (cleanupBackups c9WitnessFs 2).2.1 = 3 := by
  have h := (cleanup_backups_best_effort c9WitnessFs 2 (by decide) (by decide)).2 (by decide)
  exact ⟨h.1, h.2.1.trans (by decide)⟩

/-! ## Project scanner (`scanProject`)

The project directory is modelled as a list of path/entry pairs (paths
relative to the project root, with `/` separators; directories listed
explicitly).  `JSON.parse` is modelled by a fuel-based recursive-descent
parser of the JSON grammar (the numeric value is truncated to its integer
part — the scanner never reads numeric values, only truthiness and
structure). -/

inductive Json where
  | null
  | bool (b : Bool)
  | num (n : Int)
  | str (s : String)
  | arr (elems : List Json)
  | obj (fields : List (String × Json))
deriving Repr

def jsonWs (c : Char) : Bool :=
  c == ' ' || c == '\n' || c == '\t' || c == '\r'

def skipJsonWs (s : List Char) : List Char := s.dropWhile jsonWs

def hexVal (c : Char) : Option Nat :=
  if c.isDigit then some (c.toNat - 48)
  else if 'a' ≤ c ∧ c ≤ 'f' then some (c.toNat - 87)
  else if 'A' ≤ c ∧ c ≤ 'F' then some (c.toNat - 55)
  else none

def parseStringBody : Nat → List Char → List Char → Except Unit (String × List Char)
  | 0, _, _ => .error ()
  | _, [], _ => .error ()
  | fuel+1, c :: rest, acc =>
    if c = '"' then .ok (⟨acc.reverse⟩, rest)
    else if c = '\\' then
      match rest with
      | [] => .error ()
      | e :: rest2 =>
        if e = '"' then parseStringBody fuel rest2 ('"' :: acc)
        else if e = '\\' then parseStringBody fuel rest2 ('\\' :: acc)
        else if e = '/' then parseStringBody fuel rest2 ('/' :: acc)
        else if e = 'b' then parseStringBody fuel rest2 ('\x08' :: acc)
        else if e = 'f' then parseStringBody fuel rest2 ('\x0c' :: acc)
        else if e = 'n' then parseStringBody fuel rest2 ('\n' :: acc)
        else if e = 'r' then parseStringBody fuel rest2 ('\r' :: acc)
        else if e = 't' then parseStringBody fuel rest2 ('\t' :: acc)
        else if e = 'u' then
          match rest2 with
          | h1 :: h2 :: h3 :: h4 :: rest3 =>
            match hexVal h1, hexVal h2, hexVal h3, hexVal h4 with
            | some a, some b, some c2, some d =>
              parseStringBody fuel rest3 (Char.ofNat (((a * 16 + b) * 16 + c2) * 16 + d) :: acc)
            | _, _, _, _ => .error ()
          | _ => .error ()
        else .error ()
    else parseStringBody fuel rest (c :: acc)

def parseNumber (s : List Char) : Except Unit (Json × List Char) :=
  let (neg, s1) := match s with
    | '-' :: r => (true, r)
    | _ => (false, s)
  let (ds, s2) := s1.span Char.isDigit
  if ds.isEmpty then .error ()
  else if ds.length > 1 && ds.headD '0' == '0' then .error ()
  else
    let intval : Nat := ds.foldl (fun n c => n * 10 + (c.toNat - 48)) 0
    let (fracOk, s3) : Bool × List Char := match s2 with
      | '.' :: r =>
        let (fdigits, r2) := r.span Char.isDigit
        (!fdigits.isEmpty, r2)
      | _ => (true, s2)
    if !fracOk then .error ()
    else
      let (expOk, s4) : Bool × List Char := match s3 with
        | 'e' :: r | 'E' :: r =>
          let r2 := match r with
            | '+' :: rr => rr
            | '-' :: rr => rr
            | _ => r
          let (edigits, r3) := r2.span Char.isDigit
          (!edigits.isEmpty, r3)
        | _ => (true, s3)
      if !expOk then .error ()
      else .ok (.num (if neg then -(intval : Int) else (intval : Int)), s4)

mutual

def parseJsonVal : Nat → List Char → Except Unit (Json × List Char)
  | 0, _ => .error ()
  | fuel+1, s =>
    match skipJsonWs s with
    | 'n' :: 'u' :: 'l' :: 'l' :: rest => .ok (.null, rest)
    | 't' :: 'r' :: 'u' :: 'e' :: rest => .ok (.bool true, rest)
    | 'f' :: 'a' :: 'l' :: 's' :: 'e' :: rest => .ok (.bool false, rest)
    | '"' :: rest =>
      match parseStringBody (rest.length + 1) rest [] with
      | .ok (s2, r) => .ok (.str s2, r)
      | .error e => .error e
    | '[' :: rest =>
      (match skipJsonWs rest with
       | ']' :: r2 => .ok (.arr [], r2)
       | s2 =>
         match parseJsonVal fuel s2 with
         | .ok (v, r) => parseArrayRest fuel r [v]
         | .error e => .error e)
    | '{' :: rest =>
      (match skipJsonWs rest with
       | '}' :: r2 => .ok (.obj [], r2)
       | s2 => parseObjField fuel s2 [])
    | s1 => parseNumber s1

def parseArrayRest : Nat → List Char → List Json → Except Unit (Json × List Char)
  | 0, _, _ => .error ()
  | fuel+1, s, acc =>
    match skipJsonWs s with
    | ']' :: rest => .ok (.arr acc.reverse, rest)
    | ',' :: rest =>
      match parseJsonVal fuel rest with
      | .ok (v, r) => parseArrayRest fuel r (v :: acc)
      | .error e => .error e
    | _ => .error ()

def parseObjField : Nat → List Char → List (String × Json) → Except Unit (Json × List Char)
  | 0, _, _ => .error ()
  | fuel+1, s, acc =>
    match skipJsonWs s with
    | '"' :: rest =>
      match parseStringBody (rest.length + 1) rest [] with
      | .ok (k, r) =>
        (match skipJsonWs r with
         | ':' :: r2 =>
           match parseJsonVal fuel r2 with
           | .ok (v, r3) => parseObjRest fuel r3 ((k, v) :: acc)
           | .error e => .error e
         | _ => .error ())
      | .error e => .error e
    | _ => .error ()

def parseObjRest : Nat → List Char → List (String × Json) → Except Unit (Json × List Char)
  | 0, _, _ => .error ()
  | fuel+1, s, acc =>
    match skipJsonWs s with
    | '}' :: rest => .ok (.obj acc.reverse, rest)
    | ',' :: rest => parseObjField fuel rest acc
    | _ => .error ()

end

/-- `JSON.parse(s)`: parse one value, allow surrounding whitespace,
reject trailing input. -/
def jsonParse (s : String) : Except Unit Json :=
  match parseJsonVal (s.toList.length + 1) s.toList with
  | .ok (v, rest) => if (skipJsonWs rest).isEmpty then .ok v else .error ()
  | .error e => .error e

/-- JavaScript truthiness of a parsed JSON value. -/
def jsTruthy : Json → Bool
  | .null => false
  | .bool b => b
  | .num n => n != 0
  | .str s => s != ""
  | .arr _ => true
  | .obj _ => true

/-- Property access `obj[k]` (the last duplicate key wins, as in
`JSON.parse`). -/
def jsGet : Json → String → Option Json
  | .obj fields, k => (fields.reverse.find? (fun p => p.1 == k)).map (·.2)
  | _, _ => none

/-- Object spread `{...v}` for dependency maps; non-objects contribute no
keys (the manifests handled here carry object-valued dependency maps). -/
def spreadFields : Option Json → List (String × Json)
  | some (.obj fields) => fields
  | _ => []

def lookupLast (fields : List (String × Json)) (k : String) : Option Json :=
  (fields.reverse.find? (fun p => p.1 == k)).map (·.2)

/-- Truthiness of `allDeps[k]`. -/
def depHas (allDeps : List (String × Json)) (k : String) : Bool :=
  match lookupLast allDeps k with
  | some v => jsTruthy v
  | none => false

inductive FSEntry where
  | file (content : String)
  | dir
deriving Repr

/-- A project directory: path/entry pairs. -/
abbrev FS := List (String × FSEntry)

def lookupFS (fs : FS) (p : String) : Option FSEntry :=
  (fs.find? (fun e => e.1 == p)).map (·.2)

/-- `fs.access` succeeds on files and directories alike. -/
def fileExists (fs : FS) (p : String) : Bool := (lookupFS fs p).isSome

/-- `stat(...).isDirectory()` with errors treated as `false`. -/
def dirExists (fs : FS) (p : String) : Bool :=
  match lookupFS fs p with
  | some .dir => true
  | _ => false

/-- `fs.readFile(..., "utf-8")`: fails on a missing path or a
directory. -/
def readFile (fs : FS) (p : String) : Except Unit String :=
  match lookupFS fs p with
  | some (.file c) => .ok c
  | _ => .error ()

/-- `readFile(...).catch(() => "")`. -/
def readFileD (fs : FS) (p : String) : String := (readFile fs p).toOption.getD ""

/-- `readJson` helper: read then `JSON.parse` (either step may fail). -/
def readJson (fs : FS) (p : String) : Except Unit Json :=
  match readFile fs p with
  | .ok c => jsonParse c
  | .error e => .error e

/-- `readJson(...).catch(() => ({}))`. -/
def readJsonD (fs : FS) (p : String) : Json := (readJson fs p).toOption.getD (.obj [])

def strEndsWith (s suf : String) : Bool :=
  suf.toList.isSuffixOf s.toList

def splitOnChar (sep : Char) : List Char → List (List Char)
  | [] => [[]]
  | c :: rest =>
    let r := splitOnChar sep rest
    if c = sep then [] :: r
    else match r with
      | [] => [[c]]
      | h :: t => (c :: h) :: t

/-- fast-glob with default `dot: false`: no path segment may start with a
dot. -/
def noHiddenSegment (p : String) : Bool :=
  (splitOnChar '/' p.toList).all (fun seg =>
    match seg with
    | '.' :: _ => false
    | _ => true)

/-- The ignore list passed to every glob call. -/
def ignoredPath (p : String) : Bool :=
  ["node_modules/", ".git/", "dist/", "build/", "coverage/", "bin/", "obj/",
   ".next/", ".nuxt/", "vendor/", "__pycache__/"].any
    (fun d => strStartsWith p d)

/-- `glob(path, pattern, limit)` for the any-depth extension patterns
used by the scanner. -/
def globExt (fs : FS) (exts : List String) (limit : Nat) : List String :=
  (fs.filterMap (fun pe =>
    match pe.2 with
    | .file _ =>
      if exts.any (fun e => strEndsWith pe.1 e) && noHiddenSegment pe.1 &&
          !(ignoredPath pe.1) then
        some pe.1
      else none
    | .dir => none)).take limit

/-- `glob(path, pattern)` for the top-level single-extension pattern. -/
def globTop (fs : FS) (ext : String) : List String :=
  (fs.filterMap (fun pe =>
    match pe.2 with
    | .file _ =>
      if strEndsWith pe.1 ext && !(pe.1.toList.contains '/') &&
          noHiddenSegment pe.1 then
        some pe.1
      else none
    | .dir => none)).take 100

/-- `fs.readdir(dir)`: the immediate child names; fails when `dir` is not
a listed directory. -/
def readdirNames (fs : FS) (dir : String) : Except Unit (List String) :=
  match lookupFS fs dir with
  | some .dir =>
    .ok (fs.filterMap (fun pe =>
      if strStartsWith pe.1 (dir ++ "/") then
        let rest := pe.1.toList.drop (dir.length + 1)
        if rest.isEmpty || rest.contains '/' then none
        else some (⟨rest⟩ : String)
      else none))
  | _ => .error ()

def countSubstrAux : Nat → List Char → List Char → Nat
  | 0, _, _ => 0
  | fuel+1, s, pat =>
    match listIndexOf s pat with
    | none => 0
    | some i => 1 + countSubstrAux fuel (s.drop (i + pat.length)) pat

/-- Number of matches of `s.match(/pat/g)` for a plain pattern. -/
def countSubstr (s pat : String) : Nat :=
  countSubstrAux (s.toList.length + 1) s.toList pat.toList

structure ScanResult where
  name : String
  languages : List String
  frameworks : List String
  databases : List String
  architecture : List String
  projectType : String
  techStack : List String
  hasTests : Bool
  hasDocker : Bool
  hasCI : Bool
  hasApi : Bool
  existingClaude : Bool
  existingSkills : List String
  existingAgents : List String
  existingHooks : List String
deriving DecidableEq, Repr

/-- The `detected` object as initialized at the top of `scanProject`
(`name` is the base name of the project path). -/
def emptyScan (name : String) : ScanResult :=
  { name := name, languages := [], frameworks := [], databases := [],
    architecture := [], projectType := "general", techStack := [],
    hasTests := false, hasDocker := false, hasCI := false, hasApi := false,
    existingClaude := false, existingSkills := [], existingAgents := [],
    existingHooks := [] }

/-- `scanProject(projectPath)` over the modelled directory contents.
Each statement is translated in source order; reads that the source wraps
in `.catch` use the defaulting helpers, while the `readJson` of
`package.json` in the Node.js detection block is (as in the source) not
caught, so its failure propagates as a scan failure. -/
def scanProject (fs : FS) (projectName : String) : Except Unit ScanResult := do
  let mut d : ScanResult := emptyScan projectName
  -- Node.js / JavaScript / TypeScript
  if fileExists fs "package.json" then
    d := { d with languages := d.languages ++ ["javascript"],
                  techStack := d.techStack ++ ["nodejs"] }
    let pkg ← readJson fs "package.json"
    d := { d with name := match jsGet pkg "name" with
                  | some (.str s) => if s != "" then s else d.name
                  | _ => d.name }
    let allDeps := spreadFields (jsGet pkg "dependencies") ++
      spreadFields (jsGet pkg "devDependencies")
    if depHas allDeps "@angular/core" then
      d := { d with frameworks := d.frameworks ++ ["angular"],
                    techStack := d.techStack ++ ["angular"],
                    projectType := "angular-frontend" }
    if depHas allDeps "next" then
      d := { d with frameworks := d.frameworks ++ ["nextjs"],
                    techStack := d.techStack ++ ["nextjs"],
                    projectType := "react-nextjs" }
    if depHas allDeps "react" && !(depHas allDeps "next") then
      d := { d with frameworks := d.frameworks ++ ["react"],
                    techStack := d.techStack ++ ["react"],
                    projectType := "react-nextjs" }
    if depHas allDeps "vue" then
      d := { d with frameworks := d.frameworks ++ ["vue"],
                    techStack := d.techStack ++ ["vue"],
                    projectType := "general" }
    if depHas allDeps "express" || depHas allDeps "fastify" ||
        depHas allDeps "koa" || depHas allDeps "hapi" then
      d := { d with frameworks := d.frameworks ++ ["node-api"],
                    projectType := "api-service", hasApi := true }
    if depHas allDeps "typescript" then
      d := { d with languages := d.languages ++ ["typescript"],
                    techStack := d.techStack ++ ["typescript"] }
    if depHas allDeps "@nestjs/core" then
      d := { d with frameworks := d.frameworks ++ ["nestjs"],
                    techStack := d.techStack ++ ["nestjs"],
                    projectType := "api-service", hasApi := true }
    if depHas allDeps "jest" || depHas allDeps "mocha" ||
        depHas allDeps "vitest" || depHas allDeps "ava" then
      d := { d with hasTests := true }
    if depHas allDeps "pg" || depHas allDeps "postgres" then
      d := { d with databases := d.databases ++ ["postgresql"],
                    techStack := d.techStack ++ ["sql"] }
    if depHas allDeps "mysql" || depHas allDeps "mysql2" then
      d := { d with databases := d.databases ++ ["mysql"],
                    techStack := d.techStack ++ ["sql"] }
    if depHas allDeps "mongodb" || depHas allDeps "mongoose" then
      d := { d with databases := d.databases ++ ["mongodb"],
                    techStack := d.techStack ++ ["nosql"] }
    if depHas allDeps "redis" || depHas allDeps "ioredis" then
      d := { d with databases := d.databases ++ ["redis"] }
    if depHas allDeps "prisma" || depHas allDeps "@prisma/client" then
      d := { d with frameworks := d.frameworks ++ ["prisma"] }
    if depHas allDeps "typeorm" then
      d := { d with frameworks := d.frameworks ++ ["typeorm"] }
    if depHas allDeps "sequelize" then
      d := { d with frameworks := d.frameworks ++ ["sequelize"] }
  -- .NET / C#
  let csprojFiles := globExt fs [".csproj"] 100
  if csprojFiles.length > 0 then
    d := { d with languages := d.languages ++ ["csharp"],
                  techStack := d.techStack ++ ["dotnet"] }
    for csproj in csprojFiles.take 5 do
      let content ← readFile fs csproj
      if strIncludes content "Microsoft.EntityFrameworkCore" then
        if !(d.frameworks.contains "ef-core") then
          d := { d with frameworks := d.frameworks ++ ["ef-core"],
                        techStack := d.techStack ++ ["ef-core"] }
      if strIncludes content "Microsoft.AspNetCore" then
        if !(d.frameworks.contains "aspnet") then
          d := { d with frameworks := d.frameworks ++ ["aspnet"],
                        projectType := "api-service", hasApi := true }
      if strIncludes content "xunit" || strIncludes content "NUnit" ||
          strIncludes content "MSTest" then
        d := { d with hasTests := true }
      if strIncludes content "Blazor" then
        d := { d with frameworks := d.frameworks ++ ["blazor"] }
    let slnFiles := globTop fs ".sln"
    if slnFiles.length > 0 && csprojFiles.length > 3 then
      d := { d with projectType := "dotnet-clean-arch" }
  -- Python
  if fileExists fs "requirements.txt" || fileExists fs "pyproject.toml" ||
      fileExists fs "setup.py" || fileExists fs "Pipfile" then
    d := { d with languages := d.languages ++ ["python"],
                  techStack := d.techStack ++ ["python"] }
    let reqContent := readFileD fs "requirements.txt"
    let pyprojectContent := readFileD fs "pyproject.toml"
    let combined := reqContent ++ pyprojectContent
    if strIncludes combined "fastapi" || strIncludes combined "FastAPI" then
      d := { d with frameworks := d.frameworks ++ ["fastapi"],
                    projectType := "api-service", hasApi := true }
    if strIncludes combined "django" || strIncludes combined "Django" then
      d := { d with frameworks := d.frameworks ++ ["django"],
                    projectType := "api-service", hasApi := true }
    if strIncludes combined "flask" || strIncludes combined "Flask" then
      d := { d with frameworks := d.frameworks ++ ["flask"],
                    projectType := "api-service", hasApi := true }
    if strIncludes combined "pytest" then
      d := { d with hasTests := true }
    if strIncludes combined "sqlalchemy" || strIncludes combined "SQLAlchemy" then
      d := { d with frameworks := d.frameworks ++ ["sqlalchemy"] }
  -- Go
  if fileExists fs "go.mod" then
    d := { d with languages := d.languages ++ ["go"],
                  techStack := d.techStack ++ ["go"] }
    let goModContent := readFileD fs "go.mod"
    if strIncludes goModContent "gin-gonic" then
      d := { d with frameworks := d.frameworks ++ ["gin"],
                    projectType := "api-service", hasApi := true }
    if strIncludes goModContent "echo" then
      d := { d with frameworks := d.frameworks ++ ["echo"],
                    projectType := "api-service", hasApi := true }
    if strIncludes goModContent "fiber" then
      d := { d with frameworks := d.frameworks ++ ["fiber"],
                    projectType := "api-service", hasApi := true }
  -- Rust
  if fileExists fs "Cargo.toml" then
    d := { d with languages := d.languages ++ ["rust"],
                  techStack := d.techStack ++ ["rust"] }
    let cargoContent := readFileD fs "Cargo.toml"
    if strIncludes cargoContent "actix-web" then
      d := { d with frameworks := d.frameworks ++ ["actix"],
                    projectType := "api-service", hasApi := true }
    if strIncludes cargoContent "axum" then
      d := { d with frameworks := d.frameworks ++ ["axum"],
                    projectType := "api-service", hasApi := true }
  -- Java
  if fileExists fs "pom.xml" || fileExists fs "build.gradle" then
    d := { d with languages := d.languages ++ ["java"],
                  techStack := d.techStack ++ ["java"] }
    let pomContent := readFileD fs "pom.xml"
    let gradleContent := readFileD fs "build.gradle"
    let combined := pomContent ++ gradleContent
    if strIncludes combined "spring-boot" ||
        strIncludes combined "org.springframework.boot" then
      d := { d with frameworks := d.frameworks ++ ["spring-boot"],
                    projectType := "api-service", hasApi := true }
  -- Architecture patterns
  if (dirExists fs "src/Domain" && dirExists fs "src/Application") ||
      (dirExists fs "Domain" && dirExists fs "Application") ||
      (dirExists fs "src/Core" && dirExists fs "src/Infrastructure") then
    d := { d with architecture := d.architecture ++ ["clean-architecture"] }
    if d.techStack.contains "dotnet" then
      d := { d with projectType := "dotnet-clean-arch" }
  if dirExists fs "src/Features" || dirExists fs "Features" then
    d := { d with architecture := d.architecture ++ ["vertical-slice"] }
  if dirExists fs "src/Application/Commands" ||
      dirExists fs "src/Application/Queries" ||
      dirExists fs "Commands" || dirExists fs "Queries" then
    d := { d with architecture := d.architecture ++ ["cqrs"] }
  if dirExists fs "src/Repositories" || dirExists fs "Repositories" ||
      dirExists fs "src/Infrastructure/Repositories" then
    d := { d with architecture := d.architecture ++ ["repository-pattern"] }
  if dirExists fs "services" || fileExists fs "docker-compose.yml" then
    let dockerContent := readFileD fs "docker-compose.yml"
    if strIncludes dockerContent "services:" &&
        countSubstr dockerContent "services:" > 3 then
      d := { d with architecture := d.architecture ++ ["microservices"] }
  if fileExists fs "pnpm-workspace.yaml" || fileExists fs "lerna.json" ||
      fileExists fs "nx.json" || dirExists fs "packages" || dirExists fs "apps" then
    d := { d with projectType := "monorepo" }
  if fileExists fs "package.json" then
    let pkg := readJsonD fs "package.json"
    let binTruthy := match jsGet pkg "bin" with
      | some v => jsTruthy v
      | none => false
    let kwCli := match jsGet pkg "keywords" with
      | some (.arr xs) => xs.any (fun j => match j with
        | .str s => s == "cli"
        | _ => false)
      | some (.str s) => strIncludes s "cli"
      | _ => false
    if binTruthy || kwCli then
      d := { d with projectType := "cli-tool" }
  -- Infrastructure
  if fileExists fs "Dockerfile" || fileExists fs "docker-compose.yml" ||
      fileExists fs "docker-compose.yaml" || fileExists fs ".dockerignore" then
    d := { d with hasDocker := true, techStack := d.techStack ++ ["docker"] }
  if dirExists fs "k8s" || dirExists fs "kubernetes" || dirExists fs "helm" then
    d := { d with techStack := d.techStack ++ ["kubernetes"] }
  if dirExists fs ".github/workflows" || fileExists fs ".gitlab-ci.yml" ||
      fileExists fs "azure-pipelines.yml" || fileExists fs "Jenkinsfile" ||
      fileExists fs ".circleci/config.yml" then
    d := { d with hasCI := true }
  -- Databases via configuration-file contents
  let configFiles := globExt fs [".json", ".yaml", ".yml", ".env", ".config"] 30
  for file in configFiles do
    let content := readFileD fs file
    if strIncludes content "postgres" || strIncludes content "PostgreSQL" ||
        strIncludes content "5432" then
      if !(d.databases.contains "postgresql") then
        d := { d with databases := d.databases ++ ["postgresql"] }
        if !(d.techStack.contains "sql") then
          d := { d with techStack := d.techStack ++ ["sql"] }
    if strIncludes content "SqlServer" || strIncludes content "MSSQL" ||
        strIncludes content "1433" then
      if !(d.databases.contains "sqlserver") then
        d := { d with databases := d.databases ++ ["sqlserver"] }
        if !(d.techStack.contains "sql") then
          d := { d with techStack := d.techStack ++ ["sql"] }
    if strIncludes content "mongodb" || strIncludes content "MongoDB" ||
        strIncludes content "27017" then
      if !(d.databases.contains "mongodb") then
        d := { d with databases := d.databases ++ ["mongodb"] }
        if !(d.techStack.contains "nosql") then
          d := { d with techStack := d.techStack ++ ["nosql"] }
    if strIncludes content "mysql" || strIncludes content "MySQL" ||
        strIncludes content "3306" then
      if !(d.databases.contains "mysql") then
        d := { d with databases := d.databases ++ ["mysql"] }
        if !(d.techStack.contains "sql") then
          d := { d with techStack := d.techStack ++ ["sql"] }
  -- Existing .claude/ configuration
  if dirExists fs ".claude" then
    d := { d with existingClaude := true }
    if dirExists fs ".claude/skills" then
      match readdirNames fs ".claude/skills" with
      | .error _ => pure ()
      | .ok skillDirs =>
        for sd in skillDirs do
          if dirExists fs (".claude/skills/" ++ sd) then
            d := { d with existingSkills := d.existingSkills ++ [sd] }
    if dirExists fs ".claude/agents" then
      match readdirNames fs ".claude/agents" with
      | .error _ => pure ()
      | .ok agentFiles =>
        let agentNames := (agentFiles.filter (fun f => strEndsWith f ".md")).map
          (fun f => jsReplaceOnce f ".md")
        d := { d with existingAgents := agentNames }
    if dirExists fs ".claude/hooks" then
      match readdirNames fs ".claude/hooks" with
      | .error _ => pure ()
      | .ok hookFiles =>
        let hookNames := (hookFiles.filter (fun f => strEndsWith f ".sh")).map
          (fun f => jsReplaceOnce f ".sh")
        d := { d with existingHooks := hookNames }
  -- Deduplicate list fields
  d := { d with languages := dedupFirst d.languages,
                frameworks := dedupFirst d.frameworks,
                databases := dedupFirst d.databases,
                architecture := dedupFirst d.architecture,
                techStack := dedupFirst d.techStack }
  return d

/-- C7: scanning an empty directory returns the default ScanResult —
`projectType` is `general`, every list field is empty, every boolean flag
is false — and does not fail. -/
theorem scan_empty_dir_defaults :
    scanProject [] "empty" = Except.ok (emptyScan "empty") := by
  rfl

/-- A directory whose package-manager manifest exists but holds
unparsable JSON (a lone opening brace). -/
def c6Fs : FS := [("package.json", FSEntry.file "\x7b")]

/-- C6: the claim (and the spec) require the scan never to fail even on
an unparsable manifest, but the uncaught `readJson` in the Node.js
detection block propagates the parse failure: the manifest exists, yet
the whole scan rejects instead of returning a defaulted ScanResult. -/
theorem scan_throws_on_invalid_package_json :
    fileExists c6Fs "package.json" = true ∧
    scanProject c6Fs "project" = Except.error () := by
  exact ⟨rfl, rfl⟩
